import Mathlib

/-!
Verification of the coverage data structure and exploration strategies of
`src/bin/collatz/collatz.c` (dag-erling/collatz).

The C program explores the Collatz relation in reverse from the base case
and records proven-reachable integers in a binary interval tree.  This file
is a shallow embedding of that program: every definition below is a direct
translation of the corresponding C function, with C's `uintmax_t` (64-bit
unsigned) arithmetic made explicit as natural-number arithmetic modulo 2^64
and C's `unsigned int` counters as arithmetic modulo 2^32.  Global mutable
state (the `proven` pointer and the statistics counters) is threaded through
explicitly; the `proven` pointer is represented by the (first, last) bounds
of the node it points to, which the C code keeps in sync at every site that
assigns it.  Ghost fields (`recordLog`, `appendLog`) record the sequence of
newly recorded values and of values handed to `work_append`; they are
observation-only and influence no computation.
-/

namespace collatz

/-- Modulus of C's `uintmax_t` (64-bit unsigned) arithmetic. -/
def W : Nat := 2 ^ 64

/-- Modulus of C's `unsigned int` (32-bit) arithmetic. -/
def U : Nat := 2 ^ 32

/-- C expression `x + 1` at type `uintmax_t`. -/
def winc (x : Nat) : Nat := (x + 1) % W

/-- C expression `x - 1` at type `uintmax_t` (wraps at zero). -/
def wdec (x : Nat) : Nat := (x + (W - 1)) % W

/-- C expression `last - first + 1` at type `uintmax_t`. -/
def wspan (first last : Nat) : Nat := ((last + (W - first % W)) % W + 1) % W

/-- C expression `a + b` at type `uintmax_t`. -/
def wadd (a b : Nat) : Nat := (a + b) % W

/-- C expression `num * 2` at type `uintmax_t`. -/
def wmul2 (x : Nat) : Nat := (x * 2) % W

/-- C expression `x + 1` at type `unsigned int`. -/
def uinc (x : Nat) : Nat := (x + 1) % U

/-- C expression `x - 1` at type `unsigned int` (wraps at zero). -/
def udec (x : Nat) : Nat := (x + (U - 1)) % U

/-- The `node` struct of collatz.c lines 61-68.  The C code maintains
`(left == NULL) == (right == NULL)` (asserted at line 289 and established at
every assignment: lines 200-201, 206-207 and 249 always set or clear both
children together), so a node is embedded as either a leaf (both children
null) or an inner node (both children present); invariant 1 of spec section 3
is thereby captured by the shape of the datatype. -/
inductive Node : Type where
  | leaf (depth first last covered : Nat)
  | inner (depth first last covered : Nat) (left right : Node)
deriving Repr, DecidableEq

/-- Field `n->first`. -/
def Node.first : Node → Nat
  | .leaf _ f _ _ => f
  | .inner _ f _ _ _ _ => f

/-- Field `n->last`. -/
def Node.last : Node → Nat
  | .leaf _ _ l _ => l
  | .inner _ _ l _ _ _ => l

/-- Field `n->covered`. -/
def Node.covered : Node → Nat
  | .leaf _ _ _ c => c
  | .inner _ _ _ c _ _ => c

/-- Field `n->depth`. -/
def Node.depth : Node → Nat
  | .leaf d _ _ _ => d
  | .inner d _ _ _ _ _ => d

/-- The `LEAF_NODE` macro (line 70). -/
def Node.isLeaf : Node → Bool
  | .leaf _ _ _ _ => true
  | .inner _ _ _ _ _ _ => false

/-- The global mutable state of collatz.c that the tree code touches: the
non-owning `proven` pointer (line 73, represented by the bounds of the node
it points to, `none` for NULL) and the counters `nodes`, `maxnodes`
(lines 74, 87) and `maxdepth` (line 87). -/
structure Glob : Type where
  proven : Option (Nat × Nat)
  nodes : Nat
  maxnodes : Nat
  maxdepth : Nat
deriving Repr, DecidableEq

/-- `create()` (lines 123-140): builds a leaf with
`covered = last - first + 1`, updates `maxdepth`, advances the node counter
exactly as the C code does (`nodes++;` on line 134 followed by
`if (++nodes > maxnodes) maxnodes = nodes;` on lines 135-136, i.e. the
counter advances by two per call), and points `proven` at the new node when
`first == 1`. -/
def create (g : Glob) (depth first last : Nat) : Node × Glob :=
  let covered := wspan first last
  let maxdepth := if depth > g.maxdepth then depth else g.maxdepth
  let nodes := uinc (uinc g.nodes)
  let maxnodes := if nodes > g.maxnodes then nodes else g.maxnodes
  let proven := if first = 1 then some (first, last) else g.proven
  (Node.leaf depth first last covered,
   { proven := proven, nodes := nodes, maxnodes := maxnodes, maxdepth := maxdepth })

/-- `destroy()` (lines 145-156): recursively frees a subtree, decrementing
the node counter once per node (children first, left before right). -/
def destroy (g : Glob) : Node → Glob
  | .leaf _ _ _ _ => { g with nodes := udec g.nodes }
  | .inner _ _ _ _ l r =>
    let g := destroy g l
    let g := destroy g r
    { g with nodes := udec g.nodes }

/-- `insert_into_leaf()` (lines 171-215), for a leaf with fields
`d, nf, nl, nc`.  The final `else` of the C code is `assert(0)`
(line 209); it is unreachable because the negation of the overlap test on
line 181 is exactly the disjunction of the two split guards on lines 196
and 202 (see `insert_into_leaf_guards_exhaustive` below), so the branch is
embedded as an arbitrary no-change result. -/
def insert_into_leaf (d nf nl nc first last : Nat) (g : Glob) :
    Node × Bool × Glob :=
  if first ≥ nf ∧ last ≤ nl then
    (Node.leaf d nf nl nc, true, g)
  else if first ≤ winc nl ∧ last ≥ wdec nf then
    let nf' := if first < nf then first else nf
    let nl' := if last > nl then last else nl
    let g := if nf' = 1 then { g with proven := some (nf', nl') } else g
    (Node.leaf d nf' nl' (wspan nf' nl'), false, g)
  else if last < wdec nf then
    let (l, g) := create g (d + 1) first last
    let (r, g) := create g (d + 1) nf nl
    (Node.inner d l.first r.last (wadd l.covered r.covered) l r, false, g)
  else if first > winc nl then
    let (l, g) := create g (d + 1) nf nl
    let (r, g) := create g (d + 1) first last
    (Node.inner d l.first r.last (wadd l.covered r.covered) l r, false, g)
  else
    (Node.leaf d nf nl nc, true, g)

/-- `insert()` (lines 283-318) together with `insert_into_internal()`
(lines 229-278).  The two C functions are mutually recursive only through
the child calls on lines 260-268, so `insert_into_internal` is inlined into
the `inner` arm here to obtain structural recursion; each block is labelled
with the C lines it translates.  The trailing coverage fix-up of `insert`
(lines 303-316) is `fixup` below.  The `assert(0)` on line 270 is likewise
unreachable (`insert_into_internal_guards_exhaustive` below) and its branch
is embedded as a no-change result. -/
def fixup : Node → Node
  | .leaf d f l _ => Node.leaf d f l (wspan f l)
  | .inner d _ _ _ a b =>
    Node.inner d a.first b.last (wadd a.covered b.covered) a b

def insert : Node → Nat → Nat → Glob → Node × Bool × Glob
  | n@(.leaf d nf nl nc), first, last, g =>
    -- lines 292-295: trivial cases
    if (first = last ∧ (first = nf ∨ last = nl)) ∨ (first = nf ∧ last = nl) then
      (n, true, g)
    else
      -- line 300: dispatch to insert_into_leaf
      match insert_into_leaf d nf nl nc first last g with
      | (n', found, g) =>
        -- lines 303-316
        (if found then n' else fixup n', found, g)
  | n@(.inner d nf nl nc l r), first, last, g =>
    -- lines 292-295: trivial cases (LEAF_NODE(n) is false here)
    if first = last ∧ (first = nf ∨ last = nl) then
      (n, true, g)
    else
      -- body of insert_into_internal, lines 237-277
      let res :=
        if first ≤ winc l.last ∧ last ≥ wdec r.first then
          -- lines 237-254: overlaps with or adjacent to both children
          let nf' := if first < nf then first else nf
          let nl' := if last > nl then last else nl
          let g := destroy g l
          let g := destroy g r
          let g := if nf' = 1 then { g with proven := some (nf', nl') } else g
          (Node.leaf d nf' nl' (wspan nf' nl'), false, g)
        else
          let child :=
            if first > winc l.last ∧ last < wdec r.first then
              -- lines 257-262: sits between them, pass to the shallowest
              if l.depth < r.depth then
                match insert l first last g with
                | (l', found, g) => (Node.inner d nf nl nc l' r, found, g)
              else
                match insert r first last g with
                | (r', found, g) => (Node.inner d nf nl nc l r', found, g)
            else if last < wdec r.first then
              -- lines 263-265: overlaps with, adjacent to or left of left child
              match insert l first last g with
              | (l', found, g) => (Node.inner d nf nl nc l' r, found, g)
            else if first > winc l.last then
              -- lines 266-268: overlaps with, adjacent to or right of right child
              match insert r first last g with
              | (r', found, g) => (Node.inner d nf nl nc l r', found, g)
            else
              (n, true, g)
          match child with
          | (.inner d' nf' nl' nc' l' r', found, g) =>
            -- lines 272-276
            (if found then Node.inner d' nf' nl' nc' l' r'
             else Node.inner d' l'.first r'.last (wadd l'.covered r'.covered) l' r',
             found, g)
          | other => other
      match res with
      | (n', found, g) =>
        -- lines 303-316
        (if found then n' else fixup n', found, g)

/-- `lookup()` (lines 323-335). -/
def lookup : Node → Nat → Bool
  | .leaf _ f l _, num => decide (num ≥ f ∧ num ≤ l)
  | .inner _ _ _ _ a b, num =>
    if num ≥ a.first ∧ num ≤ a.last then lookup a num
    else if num ≥ b.first ∧ num ≤ b.last then lookup b num
    else false

/-- `WORKQUEUE_SIZE` (line 79). -/
def WORKQUEUE_SIZE : Nat := 2 ^ 20

/-- The work-queue globals (lines 81-82): the backing array `queue`
(a function from index to stored value, zero-initialised) and the cursors
`qr`, `qw`. -/
structure Wq : Type where
  q : Nat → Nat
  qr : Nat
  qw : Nat

/-- `work_append()` (lines 340-350). -/
def work_append (s : Wq) (num : Nat) : Bool × Wq :=
  if s.qw = s.qr ∧ s.q s.qw ≠ 0 then
    (false, s)
  else
    (true, { q := fun i => if i = s.qw then num else s.q i,
             qr := s.qr, qw := (s.qw + 1) % WORKQUEUE_SIZE })

/-- `work_fetch()` (lines 352-364). -/
def work_fetch (s : Wq) : Nat × Wq :=
  if s.qr = s.qw ∧ s.q s.qr = 0 then
    (0, s)
  else
    (s.q s.qr,
     { q := fun i => if i = s.qr then 0 else s.q i,
       qr := (s.qr + 1) % WORKQUEUE_SIZE, qw := s.qw })

/-- State of a recursive-strategy run: the tree root, the shared globals,
the `static uintmax_t depth` of `collatz_r` and the `maxrecurse` counter,
plus the ghost log of newly recorded values. -/
structure StR : Type where
  root : Node
  glob : Glob
  depth : Nat
  maxrecurse : Nat
  recordLog : List Nat

/-- State of an iterative-strategy run: the tree root, the shared globals
and the work queue, plus ghost logs of the values handed to `work_append`
and of the newly recorded values. -/
structure StI : Type where
  root : Node
  glob : Glob
  wq : Wq
  appendLog : List Nat
  recordLog : List Nat

/-- A `work_append` call as made by the explorer (result ignored, compare
lines 431 and 459-461), with the ghost `appendLog` extended by the value
handed over. -/
def wappend (st : StI) (v : Nat) : StI :=
  { st with wq := (work_append st.wq v).2, appendLog := st.appendLog ++ [v] }

/-- Lines 459-463 of `collatz_i`: after recording `num`, push `num * 2` and,
when `--num % 6 == 3`, `num / 3` (i.e. `(num - 1) / 3`). -/
def expandStep (st : StI) (num : Nat) : StI :=
  let st := wappend st (wmul2 num)
  if wdec num % 6 = 3 then wappend st (wdec num / 3) else st

/-- `collatz_i()` (lines 448-466), with explicit fuel bounding the number of
loop iterations; `none` means the fuel ran out before the queue emptied.
The `progress()` call on line 454 only produces terminal output (spec
section 1 excludes it) and is omitted. -/
def collatz_i (stop : Nat) : Nat → StI → Option StI
  | 0, _ => none
  | fuel + 1, st =>
    match work_fetch st.wq with
    | (num, wq) =>
      let st := { st with wq := wq }
      if num = 0 then some st
      else if num ≥ stop then collatz_i stop fuel st
      else
        match insert st.root num num st.glob with
        | (root, found, g) =>
          let st := { st with root := root, glob := g }
          if found then collatz_i stop fuel st
          else
            collatz_i stop fuel
              (expandStep { st with recordLog := st.recordLog ++ [num] } num)

/-- `collatz_r()` (lines 468-487), with explicit fuel bounding the recursion
depth; `none` means the recursion needed more nesting than the fuel allows.
The function mirrors the C control flow exactly: `depth` is incremented on
entry and `maxrecurse` updated (lines 474-475), the two early returns
(lines 477-478 and 481-482) skip the trailing `--depth` (line 486) just as
the C code does, and the second recursive call happens only when
`--num % 6 == 3` (lines 484-485).  `progress()` (line 476) is omitted as
above. -/
def collatz_r (stop : Nat) : Nat → Nat → StR → Option StR
  | 0, _, _ => none
  | fuel + 1, num, st =>
    let d := winc st.depth
    let st := { st with
      depth := d,
      maxrecurse := if d > st.maxrecurse then d else st.maxrecurse }
    if num ≥ stop then some st
    else
      match insert st.root num num st.glob with
      | (root, found, g) =>
        let st := { st with root := root, glob := g }
        if found then some st
        else
          let st := { st with recordLog := st.recordLog ++ [num] }
          match collatz_r stop fuel (wmul2 num) st with
          | none => none
          | some st =>
            if wdec num % 6 = 3 then
              match collatz_r stop fuel (wdec num / 3) st with
              | none => none
              | some st => some { st with depth := wdec st.depth }
            else
              some { st with depth := wdec st.depth }

/-- The zero-initialised globals (C statics start at zero / NULL). -/
def glob0 : Glob := { proven := none, nodes := 0, maxnodes := 0, maxdepth := 0 }

/-- `root = create(0, 1, 2)` — the seeding step of `collatz()` (line 428). -/
def seedTree : Node × Glob := create glob0 0 1 2

/-- The zero-initialised work queue. -/
def wq0 : Wq := { q := fun _ => 0, qr := 0, qw := 0 }

/-- A complete recursive-strategy run (lines 428 and 434): seed the tree
with `[1, 2]` and recurse from 4. -/
def runR (stop fuel : Nat) : Option StR :=
  collatz_r stop fuel 4
    { root := seedTree.1, glob := seedTree.2, depth := 0, maxrecurse := 0,
      recordLog := [] }

/-- The iterative strategy's state just after seeding, before `work_append(4)`. -/
def initStI : StI :=
  { root := seedTree.1, glob := seedTree.2, wq := wq0, appendLog := [],
    recordLog := [] }

/-- A complete iterative-strategy run (lines 428 and 430-432): seed the tree
with `[1, 2]`, place 4 on the queue and drain it. -/
def runI (stop fuel : Nat) : Option StI :=
  collatz_i stop fuel (wappend initStI 4)

/-- One `insert(root, ...)` call at top level, keeping tree and globals. -/
def doInsert (st : Node × Glob) (first last : Nat) : Node × Glob :=
  match insert st.1 first last st.2 with
  | (n, _, g) => (n, g)

/-- A sequence of `insert` calls against the seeded tree. -/
def applyOps (ops : List (Nat × Nat)) : Node × Glob :=
  ops.foldl (fun st p => doInsert st p.1 p.2) seedTree

/-- A sequence of single-point `insert` calls against the seeded tree. -/
def applyPoints (pts : List Nat) : Node × Glob :=
  pts.foldl (fun st p => doInsert st p p) seedTree

/-- The ordered sequence of covered leaf spans, left subtree before right —
what `fprintnodes` (lines 108-118) prints and what the spec calls
`traverse()`. -/
def leafRanges : Node → List (Nat × Nat)
  | .leaf _ f l _ => [(f, l)]
  | .inner _ _ _ _ a b => leafRanges a ++ leafRanges b

/-- The number of nodes actually present in a tree — what the `nodes`
counter (line 74) is meant to track. -/
def liveNodes : Node → Nat
  | .leaf _ _ _ _ => 1
  | .inner _ _ _ _ a b => liveNodes a + liveNodes b + 1

/-- The successor candidates the explorer derives for a newly recorded value
`v`: `v * 2` always and, when `--v % 6 == 3`, `v / 3` after the decrement,
i.e. `(v - 1) / 3` (lines 459-462 of `collatz_i`, lines 483-485 of
`collatz_r`). -/
def succs (v : Nat) : List Nat :=
  wmul2 v :: (if wdec v % 6 = 3 then [wdec v / 3] else [])

/-- The list of pending work-queue entries, oldest first, for a queue state
holding `c` entries starting at the read cursor. -/
def pending (s : Wq) (c : Nat) : List Nat :=
  (List.range c).map (fun i => s.q ((s.qr + i) % WORKQUEUE_SIZE))

/-- Well-formedness of a work-queue state holding exactly `c` entries: the
cursors are in range, the write cursor sits `c` slots past the read cursor,
the `c` pending slots hold nonzero values and every other slot holds the
zero sentinel. -/
def WqInv (s : Wq) (c : Nat) : Prop :=
  c ≤ WORKQUEUE_SIZE ∧ s.qr < WORKQUEUE_SIZE ∧ s.qw < WORKQUEUE_SIZE ∧
  s.qw = (s.qr + c) % WORKQUEUE_SIZE ∧
  (∀ i, i < c → s.q ((s.qr + i) % WORKQUEUE_SIZE) ≠ 0) ∧
  (∀ j, (∀ i, i < c → j ≠ (s.qr + i) % WORKQUEUE_SIZE) → s.q j = 0)

/-- Structural well-formedness of a tree, used as the inductive invariant:
every leaf span lies within `[1, 2^64 - 2]` (so that none of the `± 1`
computations of the C code wraps) with `covered` equal to its span size, and
every inner node has its bounds copied from its children, its `covered`
equal to the sum of theirs, and a gap of at least two between the children.
-/
def TreeInv : Node → Prop
  | .leaf _ f l c => 1 ≤ f ∧ f ≤ l ∧ l ≤ W - 2 ∧ c = l - f + 1
  | .inner _ f l c a b =>
    TreeInv a ∧ TreeInv b ∧ f = a.first ∧ l = b.last ∧ a.last + 1 < b.first ∧
    c = a.covered + b.covered

/-- Executable check of structural invariants 2-4 of spec section 3 at every
node: an inner node's bounds come from its children and its `covered` is the
sum of theirs (invariant 2), a leaf's `covered` is its span size
(invariant 3), and siblings are disjoint with `left.last + 1 < right.first`
(invariant 4).  Invariant 1 (`(left == null) == (right == null)`) is
enforced by the `Node` datatype itself, as explained at its declaration. -/
def inv245 : Node → Bool
  | .leaf _ f l c => c == l - f + 1
  | .inner _ f l c a b =>
    (f == a.first) && (l == b.last) && (c == a.covered + b.covered) &&
    decide (a.last + 1 < b.first) && inv245 a && inv245 b

/-- Bounds of the leftmost leaf of a tree — the node the `proven` pointer
tracks once the base range is present (spec section 3, invariant 5). -/
def lmlast : Node → Nat
  | .leaf _ _ l _ => l
  | .inner _ _ _ _ a _ => lmlast a

set_option maxRecDepth 100000

/-- The guard chain of `insert_into_leaf` is exhaustive: when a range
neither is a sub-range of the leaf nor overlaps-or-touches it, it sits
strictly to the left or strictly to the right, so the `assert(0)` on
line 209 of collatz.c is unreachable. -/
theorem insert_into_leaf_guards_exhaustive (nf nl first last : Nat)
    (h : ¬(first ≤ winc nl ∧ last ≥ wdec nf)) :
    last < wdec nf ∨ first > winc nl := by
  rcases Nat.lt_or_ge last (wdec nf) with h1 | h1
  · exact Or.inl h1
  · rcases Nat.lt_or_ge (winc nl) first with h2 | h2
    · exact Or.inr h2
    · exact absurd ⟨h2, h1⟩ h

/-- The guard chain of `insert_into_internal` is exhaustive: a range that
does not touch both children, does not sit strictly between them and does
not lie left of the right child's predecessor slot must lie strictly right
of the left child, so the `assert(0)` on line 270 of collatz.c is
unreachable. -/
theorem insert_into_internal_guards_exhaustive (ll rf first last : Nat)
    (h1 : ¬(first ≤ winc ll ∧ last ≥ wdec rf))
    (h3 : ¬(last < wdec rf)) :
    first > winc ll := by
  rcases Nat.lt_or_ge (winc ll) first with h | h
  · exact h
  · exact absurd ⟨h, Nat.le_of_not_lt h3⟩ h1

/-- C1, counterexample: after the recursive run with ceiling 1024, the
integer 1000 lies in [1, 1023] yet `lookup(1000)` is false, refuting the
claim that every integer in [1, 1023] satisfies `lookup(n) == true`. -/
theorem c1_counterexample :
    (runR 1024 4096).map (fun st => lookup st.root 1000) = some false ∧
    1 ≤ 1000 ∧ 1000 ≤ 1023 := by
  refine ⟨by decide, by decide, by decide⟩

/-- C1, amended: after a run with ceiling 1024 under either strategy,
`lookup` is true at 1, 2, 4, 8 and at 5, 10, 20, but not at every integer
in [1, 1023]. -/
theorem c1_amended_thm :
    (runR 1024 4096).map (fun st =>
      [lookup st.root 1, lookup st.root 2, lookup st.root 4, lookup st.root 8,
       lookup st.root 5, lookup st.root 10, lookup st.root 20]) =
      some [true, true, true, true, true, true, true] ∧
    (runI 1024 256).map (fun st =>
      [lookup st.root 1, lookup st.root 2, lookup st.root 4, lookup st.root 8,
       lookup st.root 5, lookup st.root 10, lookup st.root 20]) =
      some [true, true, true, true, true, true, true] := by
  refine ⟨by decide, by decide⟩

/-- C2, counterexample: with ceiling 8 the runs of both strategies finish
with `lookup(8) == false` (8 equals the exclusive ceiling and is dropped at
lines 455-456 / 477-478 before ever being inserted), refuting the claim
that `lookup(8) == true`. -/
theorem c2_counterexample :
    (runR 8 64).map (fun st => lookup st.root 8) = some false ∧
    (runI 8 64).map (fun st => lookup st.root 8) = some false := by
  refine ⟨by decide, by decide⟩

/-- C2, amended: with ceiling 8 exploration terminates (both runs reach the
exhausted state within finite fuel), every recorded value is below 8 (no
candidate at or above the ceiling is expanded), and afterwards both
`lookup(8)` and `lookup(16)` are false while `lookup(4)` is true. -/
theorem c2_amended_thm :
    (runR 8 64).map (fun st =>
      [lookup st.root 8, lookup st.root 16, lookup st.root 4]) =
      some [false, false, true] ∧
    (runI 8 64).map (fun st =>
      [lookup st.root 8, lookup st.root 16, lookup st.root 4]) =
      some [false, false, true] ∧
    (runR 8 64).map (fun st => st.recordLog.all (fun v => decide (v < 8))) =
      some true ∧
    (runI 8 64).map (fun st => st.recordLog.all (fun v => decide (v < 8))) =
      some true := by
  refine ⟨by decide, by decide, by decide, by decide⟩

/-- C3, code bug: starting from the seeded tree, the in-range point inserts
4, 6, 3 (all valid, each with first = last) leave the tree as the single
leaf [1, 6], so `lookup(5)` is true although 5 lies in no inserted range and
not in the seed range [1, 2].  The coalescing case of
`insert_into_internal` (lines 237-254) fires at the root for the insert of
3 — whose range touches the left child [1, 2] and the right child's first
bound minus one — and destroys the right child [4, 6] although that child
is an inner node whose span contains the uncovered gap value 5. -/
theorem c3_bug_thm :
    lookup (applyOps [(4, 4), (6, 6), (3, 3)]).1 5 = true ∧
    leafRanges (applyOps [(4, 4), (6, 6), (3, 3)]).1 = [(1, 6)] ∧
    (∀ p ∈ ([(4, 4), (6, 6), (3, 3)] : List (Nat × Nat)),
      1 ≤ p.1 ∧ p.1 ≤ p.2 ∧ p.2 ≤ W - 2 ∧ ¬(p.1 ≤ 5 ∧ 5 ≤ p.2)) ∧
    ¬(1 ≤ 5 ∧ 5 ≤ 2) := by
  refine ⟨by decide, by decide, by decide, by decide⟩

/-- C4, code bug: at the fixed ceiling 64 both strategies run to
completion, yet the recursive strategy ends with the single covered leaf
range [1, 56] and `proven.last = 56` while the iterative strategy ends with
the leaf ranges [1, 32], [40, 40] and `proven.last = 32` — the final
RangeSet contents differ.  (The spurious coalescing of gapped subtrees,
see `c3_bug_thm`, corrupts coverage in a traversal-order-dependent way, so
the two required-equivalent strategies diverge.) -/
theorem c4_bug_thm :
    (runR 64 4096).map (fun st => leafRanges st.root) = some [(1, 56)] ∧
    (runI 64 1024).map (fun st => leafRanges st.root) =
      some [(1, 32), (40, 40)] ∧
    (runR 64 4096).map (fun st => st.glob.proven) = some (some (1, 56)) ∧
    (runI 64 1024).map (fun st => st.glob.proven) = some (some (1, 32)) ∧
    ([(1, 56)] : List (Nat × Nat)) ≠ [(1, 32), (40, 40)] := by
  refine ⟨by decide, by decide, by decide, by decide, by decide⟩

/-- C5, counterexample: two insert sequences, each with `first ≤ last`
throughout (the validity requirement stated for `insert` in spec
section 4.1), produce trees violating structural invariant 4: inserting the
point 0 makes the unsigned computation `n->first - 1` wrap to 2^64 - 1, so
a subsequent insert of 4 splits into children [4, 4], [0, 2] in the wrong
order; symmetrically, after inserting the point 2^64 - 1 the computation
`n->last + 1` wraps to 0 and inserting 2^64 - 2 splits into children in the
wrong order. -/
theorem c5_counterexample :
    inv245 (applyOps [(0, 0), (4, 4)]).1 = false ∧
    inv245 (applyOps [(2 ^ 64 - 1, 2 ^ 64 - 1), (2 ^ 64 - 2, 2 ^ 64 - 2)]).1 =
      false ∧
    (∀ p ∈ ([(0, 0), (4, 4)] : List (Nat × Nat)), p.1 ≤ p.2) ∧
    (∀ p ∈ ([(2 ^ 64 - 1, 2 ^ 64 - 1), (2 ^ 64 - 2, 2 ^ 64 - 2)] :
        List (Nat × Nat)), p.1 ≤ p.2) := by
  refine ⟨by decide, by decide, by decide, by decide⟩

/-- C8, code bug: after the seeded tree receives the single-point inserts
4, 6, 3 — three successful (non-duplicate) inserts, whose union with the
seed range [1, 2] has five elements — `root.covered` is 6: the spurious
coalescing counts the never-inserted gap value 5 as covered, so the
statistic matches neither the count of successfully inserted points (3) nor
the size of the union of all inserted ranges (5). -/
theorem c8_bug_thm :
    (applyPoints [4, 6, 3]).1.covered = 6 ∧
    (({1, 2} : Finset Nat) ∪ ([4, 6, 3] : List Nat).toFinset).card = 5 ∧
    (6 : Nat) ≠ 5 ∧ (6 : Nat) ≠ 3 := by
  refine ⟨by decide, by decide, by decide, by decide⟩

/-- C10, code bug: `create()` advances the node counter by two per node
(`nodes++` on line 134 and `++nodes` on line 135), so already after seeding
the tree with its single root leaf the counter reads 2, and after inserting
the point 4 (a split creating two children, three live nodes in total) it
reads 6 — the statistic equals twice the number of creations minus the
number of destructions, not the number of live nodes. -/
theorem c10_bug_thm :
    seedTree.2.nodes = 2 ∧ liveNodes seedTree.1 = 1 ∧
    (applyPoints [4]).2.nodes = 6 ∧ liveNodes (applyPoints [4]).1 = 3 := by
  refine ⟨by decide, by decide, by decide, by decide⟩

/-- C9, counterexample: already in the iterative run with ceiling 8 the
explorer hands the value 1 to `work_append` (processing the newly recorded
4 pushes `4 * 2 = 8` and, since `(4 - 1) % 6 == 3`, `(4 - 1) / 3 = 1`), so
not every value placed on the work queue is at least 4. -/
theorem c9_counterexample :
    (runI 8 64).map (fun st => st.appendLog) = some [4, 8, 1] ∧
    ¬(4 ≤ 1) := by
  refine ⟨by decide, by decide⟩


/-- The `uintmax_t` modulus as a numeral. -/
theorem W_eq : W = 18446744073709551616 := by norm_num [W]

/-- Below the top of the `uintmax_t` range, the C increment is the plain
successor. -/
theorem winc_eq (x : Nat) (h : x ≤ W - 2) : winc x = x + 1 := by
  unfold winc
  rw [W_eq] at *
  omega

/-- For positive in-range values, the C decrement is the plain
predecessor. -/
theorem wdec_eq (x : Nat) (h1 : 1 ≤ x) (h2 : x < W) : wdec x = x - 1 := by
  unfold wdec
  rw [W_eq] at *
  omega

/-- For ordered in-range bounds, `last - first + 1` is the plain span
size. -/
theorem wspan_eq (f l : Nat) (h1 : f ≤ l) (h2 : l ≤ W - 2) :
    wspan f l = l - f + 1 := by
  unfold wspan
  rw [W_eq] at *
  omega

/-- Without overflow, the C addition is plain addition. -/
theorem wadd_eq (a b : Nat) (h : a + b < W) : wadd a b = a + b := by
  unfold wadd
  rw [W_eq] at *
  omega

/-- Below 2^63, the C doubling is plain doubling. -/
theorem wmul2_eq (x : Nat) (h : x < 2 ^ 63) : wmul2 x = 2 * x := by
  have h63 : (2 : Nat) ^ 63 = 9223372036854775808 := by norm_num
  rw [h63] at h
  unfold wmul2
  rw [W_eq]
  omega


/-- An expansion step appends exactly the successor candidates of the
recorded value to the ghost append log. -/
theorem expandStep_appendLog (st : StI) (num : Nat) :
    (expandStep st num).appendLog = st.appendLog ++ succs num := by
  by_cases hg : wdec num % 6 = 3 <;>
    simp only [expandStep, wappend, succs, hg, if_pos, if_neg, ite_true,
      ite_false, List.append_assoc, List.singleton_append, List.cons_append,
      List.nil_append]

/-- Any value in the log after an expansion step is an old entry, the
doubled candidate, or — only when the modular test passed — the odd
predecessor candidate. -/
theorem expandStep_appendLog_mem (st : StI) (num v : Nat)
    (hv : v ∈ (expandStep st num).appendLog) :
    v ∈ st.appendLog ∨ v = wmul2 num ∨ (wdec num % 6 = 3 ∧ v = wdec num / 3) := by
  rw [expandStep_appendLog] at hv
  rcases List.mem_append.mp hv with h | h
  · exact Or.inl h
  · by_cases hg : wdec num % 6 = 3
    · simp only [succs, hg, ite_true, List.mem_cons, List.mem_singleton,
        List.not_mem_nil, or_false] at h
      rcases h with h | h
      · exact Or.inr (Or.inl h)
      · exact Or.inr (Or.inr ⟨hg, h⟩)
    · simp only [succs, hg, ite_false, List.mem_cons, List.not_mem_nil,
        or_false] at h
      exact Or.inr (Or.inl h)

/-- Draining the queue with a ceiling of at most 2^63 keeps every value
handed to `work_append` positive, given an all-positive starting log. -/
theorem collatz_i_append_pos (stop : Nat) (hstop : stop ≤ 2 ^ 63) :
    ∀ (fuel : Nat) (st st' : StI), (∀ v ∈ st.appendLog, 1 ≤ v) →
      collatz_i stop fuel st = some st' → ∀ v ∈ st'.appendLog, 1 ≤ v := by
  intro fuel
  induction fuel with
  | zero =>
    intro st st' _ h
    simp only [collatz_i] at h
    exact Option.noConfusion h
  | succ fuel ih =>
    intro st st' hpos hrun
    rw [collatz_i] at hrun
    rcases hE : work_fetch st.wq with ⟨num, wq⟩
    rw [hE] at hrun
    simp only at hrun
    by_cases h0 : num = 0
    · rw [if_pos h0] at hrun
      obtain rfl : { st with wq := wq } = st' := Option.some.inj hrun
      intro v hv
      exact hpos v hv
    · rw [if_neg h0] at hrun
      by_cases hge : num ≥ stop
      · rw [if_pos hge] at hrun
        refine ih _ st' ?_ hrun
        intro v hv
        exact hpos v hv
      · rw [if_neg hge] at hrun
        rcases hI : insert st.root num num st.glob with ⟨root, found, g⟩
        rw [hI] at hrun
        simp only at hrun
        cases found with
        | true =>
          rw [if_pos rfl] at hrun
          refine ih _ st' ?_ hrun
          intro v hv
          exact hpos v hv
        | false =>
          rw [if_neg (by simp)] at hrun
          refine ih _ st' ?_ hrun
          intro v hv
          rcases expandStep_appendLog_mem _ _ _ hv with h | h | ⟨hg, h⟩
          · exact hpos v h
          · have hnum : num < 2 ^ 63 := lt_of_lt_of_le (Nat.lt_of_not_le hge) hstop
            rw [h, wmul2_eq num hnum]
            omega
          · subst h
            omega

/-- C6: for every newly recorded value `v` (positive, below the ceiling
bound 2^63), the explorer's expansion step generates exactly the successor
candidates `2 * v` (always) and `(v - 1) / 3` (exactly when
`(v - 1) % 6 == 3`), and the test `(v - 1) % 6 == 3` holds if and only if
`(v - 1) / 3` is an odd integer, i.e. `v - 1` is three times an odd
number. -/
theorem c6_thm (v : Nat) (h1 : 1 ≤ v) (h2 : v < 2 ^ 63) :
    (∀ st : StI, (expandStep st v).appendLog = st.appendLog ++ succs v) ∧
    succs v = 2 * v :: (if (v - 1) % 6 = 3 then [(v - 1) / 3] else []) ∧
    ((v - 1) % 6 = 3 ↔ ∃ m, v - 1 = 3 * m ∧ m % 2 = 1) := by
  have hW : v < W := by
    have h63 : (2 : Nat) ^ 63 = 9223372036854775808 := by norm_num
    rw [W_eq]
    rw [h63] at h2
    omega
  have hd : wdec v = v - 1 := wdec_eq v h1 hW
  have hm : wmul2 v = 2 * v := wmul2_eq v h2
  refine ⟨fun st => expandStep_appendLog st v, ?_, ?_⟩
  · simp only [succs]
    rw [hd, hm]
  · constructor
    · intro h
      exact ⟨(v - 1) / 3, by omega, by omega⟩
    · rintro ⟨m, hm1, hm2⟩
      omega

/-- C6, witness: the successor-generation theorem instantiated at the
first explored value 4 in the freshly seeded iterative state. -/
theorem c6_witness :
    (expandStep initStI 4).appendLog = initStI.appendLog ++ succs 4 ∧
    succs 4 = 2 * 4 :: (if (4 - 1) % 6 = 3 then [(4 - 1) / 3] else []) := by
  have h := c6_thm 4 (by norm_num) (by norm_num)
  exact ⟨h.1 initStI, h.2.1⟩

/-- C9, amended: every value placed on the work queue during an iterative
run with a ceiling the program accepts (at most 2^63) is positive — in
particular no work item ever equals the zero empty-sentinel — though not
necessarily at least 4 (the value 1 is pushed, see the counterexample). -/
theorem c9_amended_thm (stop fuel : Nat) (st' : StI) (hstop : stop ≤ 2 ^ 63)
    (hrun : runI stop fuel = some st') :
    (∀ v ∈ st'.appendLog, 1 ≤ v) ∧ 0 ∉ st'.appendLog := by
  have h0 : ∀ v ∈ (wappend initStI 4).appendLog, 1 ≤ v := by
    intro v hv
    simp only [wappend, initStI, List.nil_append, List.mem_singleton] at hv
    omega
  have hall := collatz_i_append_pos stop hstop fuel _ st' h0 hrun
  refine ⟨hall, fun hc => ?_⟩
  have := hall 0 hc
  omega

/-- C9, witness: the amended theorem applied to the iterative run with
ceiling 8, whose append log is [4, 8, 1]. -/
theorem c9_witness :
    (runI 8 64).map (fun st => st.appendLog.all (fun v => decide (1 ≤ v))) =
      some true := by
  rcases hE : runI 8 64 with _ | st
  · have hs : (runI 8 64).isSome = true := by decide
    rw [hE] at hs
    exact Bool.noConfusion hs
  · have hall := (c9_amended_thm 8 64 st (by norm_num) hE).1
    simp only [Option.map_some', Option.some.injEq]
    rw [List.all_eq_true]
    intro v hv
    exact decide_eq_true (hall v hv)

/-- The queue capacity as a numeral. -/
theorem WORKQUEUE_SIZE_eq : WORKQUEUE_SIZE = 1048576 := by
  norm_num [WORKQUEUE_SIZE]

/-- Two ring-buffer slots reached by offsets less than a full revolution
apart are distinct. -/
theorem wq_idx_ne (a i j : Nat) (hij : i < j) (hd : j - i < WORKQUEUE_SIZE) :
    (a + i) % WORKQUEUE_SIZE ≠ (a + j) % WORKQUEUE_SIZE := by
  rw [WORKQUEUE_SIZE_eq] at *
  omega

/-- C7: on a well-formed queue state holding `c` entries, `work_append`
returns false and leaves the state unchanged when the buffer is full
(`c = WORKQUEUE_SIZE`), and otherwise (for a nonzero value, as every work
item is) returns true after storing the value at the tail of the pending
list; `work_fetch` returns the zero sentinel and leaves the state unchanged
when nothing is pending, and otherwise returns and clears the oldest
entry, advancing the read cursor modulo the capacity so that the pending
list loses exactly its head (FIFO order).  In particular, on a fresh empty
queue a fetch yields the sentinel, append(4) followed by fetch yields 4,
and on a completely full buffer one more append returns false with the
stored entries unaffected. -/
theorem c7_thm : ∀ (s : Wq) (c : Nat), WqInv s c →
    ((c = WORKQUEUE_SIZE → ∀ v, work_append s v = (false, s)) ∧
     (∀ v, c < WORKQUEUE_SIZE → v ≠ 0 →
       (work_append s v).1 = true ∧ WqInv (work_append s v).2 (c + 1) ∧
       pending (work_append s v).2 (c + 1) = pending s c ++ [v]) ∧
     (c = 0 → work_fetch s = (0, s)) ∧
     (0 < c →
       (work_fetch s).1 = s.q s.qr ∧ (work_fetch s).1 ≠ 0 ∧
       pending s c = (work_fetch s).1 :: pending (work_fetch s).2 (c - 1) ∧
       WqInv (work_fetch s).2 (c - 1))) ∧
    work_fetch wq0 = (0, wq0) ∧
    (work_fetch (work_append wq0 4).2).1 = 4 ∧
    work_append { q := fun _ => 4, qr := 0, qw := 0 } 9 =
      (false, { q := fun _ => 4, qr := 0, qw := 0 }) := by
  refine fun s c hinv => ⟨?_, by rfl, by rfl, by rfl⟩
  obtain ⟨hc, hqr, hqw, hqweq, hwin, hout⟩ := hinv
  have hS : 0 < WORKQUEUE_SIZE := by rw [WORKQUEUE_SIZE_eq]; omega
  refine ⟨?_, ?_, ?_, ?_⟩
  · -- full: append fails without mutation
    intro hcS v
    have h1 : s.qw = s.qr := by
      rw [hqweq, hcS]
      rw [WORKQUEUE_SIZE_eq] at *
      omega
    have h2 : s.q s.qw ≠ 0 := by
      have h0 := hwin 0 (by omega)
      rw [Nat.add_zero, Nat.mod_eq_of_lt hqr] at h0
      rw [h1]
      exact h0
    simp only [work_append]
    rw [if_pos ⟨h1, h2⟩]
  · -- append with room: succeeds, extends the pending list at the tail
    intro v hlt hv
    have hqw0 : s.q s.qw = 0 := by
      apply hout
      intro i hi heq
      have := wq_idx_ne s.qr i c hi (by omega)
      rw [← hqweq] at this
      exact this heq.symm
    have hcond : ¬(s.qw = s.qr ∧ s.q s.qw ≠ 0) := fun h => h.2 hqw0
    have hA : work_append s v =
        (true, { q := fun i => if i = s.qw then v else s.q i,
                 qr := s.qr, qw := (s.qw + 1) % WORKQUEUE_SIZE }) := by
      simp only [work_append]
      rw [if_neg hcond]
    rw [hA]
    dsimp only
    refine ⟨rfl, ⟨by omega, hqr, Nat.mod_lt _ hS, ?_, ?_, ?_⟩, ?_⟩
    · -- write cursor advanced
      show (s.qw + 1) % WORKQUEUE_SIZE = (s.qr + (c + 1)) % WORKQUEUE_SIZE
      rw [hqweq]
      rw [WORKQUEUE_SIZE_eq] at *
      omega
    · -- window entries nonzero
      intro i hi
      rcases Nat.lt_or_ge i c with hic | hic
      · have hne : (s.qr + i) % WORKQUEUE_SIZE ≠ s.qw := by
          rw [hqweq]
          exact wq_idx_ne s.qr i c hic (by omega)
        simp only [if_neg hne]
        exact hwin i hic
      · have hieq : i = c := by omega
        subst hieq
        rw [← hqweq]
        simp only [if_pos rfl]
        exact hv
    · -- entries outside the window are zero
      intro j hj
      have hjw : j ≠ s.qw := by
        intro hjw
        exact hj c (by omega) (by rw [hjw, hqweq])
      simp only [if_neg hjw]
      exact hout j (fun i hi => hj i (by omega))
    · -- the pending list gains v at the tail
      simp only [pending, List.range_succ, List.map_append, List.map_cons,
        List.map_nil]
      congr 1
      · apply List.map_congr_left
        intro i hi
        have hic : i < c := List.mem_range.mp hi
        have hne : (s.qr + i) % WORKQUEUE_SIZE ≠ s.qw := by
          rw [hqweq]
          exact wq_idx_ne s.qr i c hic (by omega)
        simp only [if_neg hne]
      · rw [← hqweq]
        simp only [eq_self_iff_true, if_true]
  · -- empty: fetch returns the sentinel without mutation
    intro hc0
    subst hc0
    have h1 : s.qr = s.qw := by
      rw [hqweq, Nat.add_zero, Nat.mod_eq_of_lt hqr]
    have h2 : s.q s.qr = 0 := hout s.qr (fun i hi => absurd hi (by omega))
    simp only [work_fetch]
    rw [if_pos ⟨h1, h2⟩]
  · -- nonempty: fetch returns and clears the oldest entry
    intro hpos
    obtain ⟨c', rfl⟩ : ∃ c', c = c' + 1 := ⟨c - 1, by omega⟩
    have hne : s.q s.qr ≠ 0 := by
      have h0 := hwin 0 (by omega)
      rwa [Nat.add_zero, Nat.mod_eq_of_lt hqr] at h0
    have hcond : ¬(s.qr = s.qw ∧ s.q s.qr = 0) := fun h => hne h.2
    have hA : work_fetch s =
        (s.q s.qr, { q := fun i => if i = s.qr then 0 else s.q i,
                     qr := (s.qr + 1) % WORKQUEUE_SIZE, qw := s.qw }) := by
      simp only [work_fetch]
      rw [if_neg hcond]
    rw [hA]
    dsimp only
    have hidx : ∀ i, ((s.qr + 1) % WORKQUEUE_SIZE + i) % WORKQUEUE_SIZE =
        (s.qr + (1 + i)) % WORKQUEUE_SIZE := by
      intro i
      rw [Nat.mod_add_mod, Nat.add_assoc]
    have hnotqr : ∀ i, i < c' → (s.qr + (1 + i)) % WORKQUEUE_SIZE ≠ s.qr := by
      intro i hi heq
      have h0 : (s.qr + 0) % WORKQUEUE_SIZE = s.qr := by
        rw [Nat.add_zero, Nat.mod_eq_of_lt hqr]
      have := wq_idx_ne s.qr 0 (1 + i) (by omega) (by omega)
      rw [h0] at this
      exact this heq.symm
    refine ⟨rfl, hne, ?_, ?_⟩
    · -- head/tail decomposition of the pending list
      simp only [pending, Nat.add_sub_cancel, List.range_succ_eq_map,
        List.map_cons, List.map_map]
      congr 1
      · rw [Nat.add_zero, Nat.mod_eq_of_lt hqr]
      · apply List.map_congr_left
        intro i hi
        have hic : i < c' := List.mem_range.mp hi
        simp only [Function.comp]
        rw [hidx i]
        have hne2 : (s.qr + (1 + i)) % WORKQUEUE_SIZE ≠ s.qr := hnotqr i hic
        simp only [if_neg hne2]
        congr 1
        congr 1
        omega
    · -- invariant for the shortened queue
      refine ⟨by omega, Nat.mod_lt _ hS, hqw, ?_, ?_, ?_⟩
      · rw [Nat.add_sub_cancel, hqweq, Nat.mod_add_mod]
        congr 1
        omega
      · intro i hi
        rw [Nat.add_sub_cancel] at hi
        rw [hidx i]
        simp only [if_neg (hnotqr i hi)]
        have h12 : s.qr + (1 + i) = s.qr + (i + 1) := by omega
        rw [h12]
        exact hwin (i + 1) (by omega)
      · intro j hj
        rw [Nat.add_sub_cancel] at hj
        by_cases hjr : j = s.qr
        · simp only [if_pos hjr]
        · simp only [if_neg hjr]
          apply hout
          intro i hi heq
          rcases Nat.eq_zero_or_pos i with rfl | hip
          · rw [Nat.add_zero, Nat.mod_eq_of_lt hqr] at heq
            exact hjr heq
          · obtain ⟨i', rfl⟩ : ∃ i', i = 1 + i' := ⟨i - 1, by omega⟩
            have := hj i' (by omega)
            rw [hidx i'] at this
            exact this heq

/-- C7, witness: the queue specification applied to the fresh empty queue
with zero pending entries — fetching from it yields the sentinel without
mutation. -/
theorem c7_witness : work_fetch wq0 = (0, wq0) := by
  have hinv : WqInv wq0 0 := by
    refine ⟨Nat.zero_le _, ?_, ?_, ?_, ?_, ?_⟩
    · show (0 : Nat) < WORKQUEUE_SIZE
      rw [WORKQUEUE_SIZE_eq]
      omega
    · show (0 : Nat) < WORKQUEUE_SIZE
      rw [WORKQUEUE_SIZE_eq]
      omega
    · show (0 : Nat) = (0 + 0) % WORKQUEUE_SIZE
      rw [Nat.add_zero, Nat.zero_mod]
    · exact fun i hi => absurd hi (Nat.not_lt_zero i)
    · exact fun j _ => rfl
  exact (c7_thm wq0 0 hinv).1.2.2.1 rfl

end collatz
